import Mathlib

/-!
Verification of the session / run / event-dispatch logic of the
`ai-agent-sample-hub` repository (three Chainlit demo backends).

The development shallowly embeds three source modules:

* `DR`  — `azure_deepresearch_agent/app.py`: run guard, progress-polling
  loop with de-duplicating emission sets, and final-result citation
  rendering.
* `RT`  — `azure_realtimeapi_agent/app.py`: the realtime turn-state
  machine; event handlers are embedded as functions from the current
  turn state and the event payload to a trace of primitive operations.
* `FC`  — `azure_realtimeapi_async_fc/app.py`: the function-call
  aggregation / dispatch / execution path, including a model of
  `json.loads` used by `_execute_function_call`.

Python `cl.user_session` key/value state is embedded as explicit record
types threaded through the functions; asynchronous handlers are embedded
as pure functions from state and inputs to (state, emitted effects).
-/

namespace DR

/-- One emission produced by the deep-research flow onto the status
panel.  `cancelRun` models a vendor-side run cancellation request; the
source never issues one, and the constructor exists so that its absence
can be stated. -/
inductive Emission where
  | cotBlock (s : String)
  | urlCitation (s : String)
  | statusFetchError (s : String)
  | unexpectedError (s : String)
  | timeoutNotice
  | runFailed
  | failDetail (s : String)
  | cancelRun
deriving DecidableEq, Repr

/-- Vendor-side action requested by the app.  Only run creation is
relevant to the claims. -/
inductive DRAction where
  | createRun (runId : String)
deriving DecidableEq, Repr

/-- Per-session state of `azure_deepresearch_agent/app.py`, embedding
the `cl.user_session` keys `active_run_id`, `emitted_cot_set` and
`emitted_url_lines`.  The Python sets of strings are embedded as lists
used only through membership tests and insertion of fresh elements. -/
structure DRSession where
  activeRunId : Option String
  emittedCot : List String
  emittedUrl : List String
deriving DecidableEq, Repr

/-- `_is_run_active`: a run is active iff `active_run_id` is non-null. -/
def isRunActive (s : DRSession) : Bool :=
  s.activeRunId.isSome

/-- Result of `_start_run`: either the updated session or the
"already active" failure (`RuntimeError("A run is already active in
this session.")` in the source). -/
inductive StartResult where
  | ok (s : DRSession)
  | alreadyActive
deriving DecidableEq, Repr

/-- `_start_run`: raise if a run is active; otherwise create the run
(`runs.create`, whose vendor-assigned id is the `runId` argument), mark
it active, and reset both progress-deduplication sets to empty. -/
def startRun (s : DRSession) (runId : String) : StartResult × List DRAction :=
  if isRunActive s then (.alreadyActive, [])
  else (.ok { s with activeRunId := some runId, emittedCot := [], emittedUrl := [] },
        [.createRun runId])

/-- `_end_run`: clear the active run id. -/
def endRun (s : DRSession) : DRSession :=
  { s with activeRunId := none }

/-- A URL citation attached to an agent message: the URL and the
optional title (`ann.url_citation.url` / `.title`). -/
structure Cite where
  url : String
  title : Option String
deriving DecidableEq, Repr

/-- `ann.url_citation.title or url`: Python `or` falls through to the
URL when the title is `None` or the empty string. -/
def citeTitle (a : Cite) : String :=
  match a.title with
  | some t => if t = "" then a.url else t
  | none => a.url

/-- One rendered reference line, `f"- [{title}]({url})"`. -/
def refLine (a : Cite) : String :=
  "- [" ++ citeTitle a ++ "](" ++ a.url ++ ")"

/-- The reference-building loop of `_display_final_results`: walk the
annotation list, skip URLs already in `seen_urls`, and append one
rendered line per first-seen URL. -/
def buildReferences (anns : List Cite) : List String :=
  (anns.foldl
    (fun (acc : List String × List String) a =>
      if a.url ∈ acc.1 then acc
      else (acc.1 ++ [a.url], acc.2 ++ [refLine a]))
    ([], [])).2

/-- Modelled from the spec: "a citation list deduplicated by URL (first
title wins for repeated URLs), preserving first-seen order" — keep each
annotation whose URL has not occurred before, in order. -/
def dedupFirstByUrl : List Cite → List Cite
  | [] => []
  | a :: rest => a :: dedupFirstByUrl (rest.filter (fun b => !(b.url = a.url)))
termination_by l => l.length
decreasing_by
  simp only [List.length_cons]
  exact Nat.lt_succ_of_le (List.length_filter_le _ _)

/-- The characters of the case-insensitive label `cot_summary:` of the
progress regex. -/
def cotLabel : List Char := "cot_summary:".toList

/-- Find the first case-insensitive occurrence of `cot_summary:` and
return the characters that follow it (the anchor of `re.search` with
pattern `(?is)cot_summary:...`). -/
def stripLabel : List Char → Option (List Char)
  | [] => none
  | c :: rest =>
    if ((c :: rest).take 12).map Char.toLower = cotLabel then
      some ((c :: rest).drop 12)
    else stripLabel rest

def isAsciiUpper (c : Char) : Bool :=
  decide ('A' ≤ c) && decide (c ≤ 'Z')

/-- Whether the lookahead `(?=\n\s*(?:[A-Z][^:]*:|$)|$)` of the
progress regex matches at this suffix: end of text, or a newline
followed (after whitespace) by end of text or by an ASCII-uppercase
letter with a later colon. -/
def boundaryAt : List Char → Bool
  | [] => true
  | c :: rest =>
    if c = '\n' then
      match rest.dropWhile Char.isWhitespace with
      | [] => true
      | c2 :: rest2 => isAsciiUpper c2 && rest2.contains ':'
    else false

/-- Length of the lazy group `(.*?)`: the shortest prefix after which
the lookahead matches. -/
def findContentLen : List Char → Nat
  | [] => 0
  | c :: rest => if boundaryAt (c :: rest) then 0 else 1 + findContentLen rest

/-- Python `str.strip()` on a character list. -/
def pyStrip (cs : List Char) : List Char :=
  ((cs.dropWhile Char.isWhitespace).reverse.dropWhile Char.isWhitespace).reverse

/-- Python `str.strip()`. -/
def pyStripS (s : String) : String := String.mk (pyStrip s.toList)

/-- The `cot_summary` extraction of `_poll_run_and_show_progress`:
`re.search(r"(?is)cot_summary:\s*(.*?)(?=\n\s*(?:[A-Z][^:]*:|$)|$)", text)`
followed by `.group(1).strip()`.  `none` models a failed search. -/
def extractCot (text : String) : Option String :=
  match stripLabel text.toList with
  | none => none
  | some rest =>
    let afterWs := rest.dropWhile Char.isWhitespace
    some (String.mk (pyStrip (afterWs.take (findContentLen afterWs))))

/-- The latest agent-authored message as observed by one poll
iteration: its text parts and its URL citation list. -/
structure AgentMessage where
  textMessages : List String
  urlCitations : List Cite
deriving DecidableEq, Repr

/-- `"\n\n".join(t.text.value.strip() for t in last_message.text_messages)`. -/
def joinedText (m : AgentMessage) : String :=
  String.intercalate "\n\n" (m.textMessages.map pyStripS)

/-- The two per-run deduplication sets (`emitted_cot_set`,
`emitted_url_lines`) as read from and written back to the session by
the poll loop. -/
structure DedupState where
  emittedCot : List String
  emittedUrl : List String
deriving DecidableEq, Repr

/-- The `cot_summary` emission step of a poll iteration: emit the
formatted block once if its exact text is not in `emitted_cot_set`,
remembering it. -/
def cotStep (text : String) (st : DedupState) : List Emission × DedupState :=
  match extractCot text with
  | some content =>
    if content = "" then ([], st)
    else
      let block := "cot_summary: " ++ content
      if block ∈ st.emittedCot then ([], st)
      else ([.cotBlock block], { st with emittedCot := st.emittedCot ++ [block] })
  | none => ([], st)

/-- The URL-citation emission step of a poll iteration: for each
annotation, format `f"[{title}]({url})"` and emit it once if not in
`emitted_url_lines`, remembering it. -/
def urlStep (cites : List Cite) (acc : List Emission × DedupState) :
    List Emission × DedupState :=
  cites.foldl
    (fun acc a =>
      let citation := "[" ++ citeTitle a ++ "](" ++ a.url ++ ")"
      if citation ∈ acc.2.emittedUrl then acc
      else (acc.1 ++ [.urlCitation citation],
            { acc.2 with emittedUrl := acc.2.emittedUrl ++ [citation] }))
    acc

/-- One progress-extraction pass of a queued/in-progress poll
iteration: nothing when there is no agent message or it has no text
parts (also covering the swallowed extraction exception), else the cot
step followed by the citation step. -/
def progressStep (msg : Option AgentMessage) (st : DedupState) :
    List Emission × DedupState :=
  match msg with
  | none => ([], st)
  | some m =>
    if m.textMessages = [] then ([], st)
    else urlStep m.urlCitations (cotStep (joinedText m) st)

/-- What one `runs.get` fetch yields: a run (status string plus
optional `last_error` detail), an `HttpResponseError`, or any other
exception. -/
inductive FetchOutcome where
  | ok (status : String) (lastError : Option String)
  | httpErr (msg : String)
  | otherErr (msg : String)
deriving DecidableEq, Repr

/-- The environment of one polling run: what the n-th `runs.get`
returns and what the n-th `get_last_message_by_role` returns (`none`
also covers the swallowed per-iteration extraction failure). -/
structure PollEnv where
  fetchRun : Nat → FetchOutcome
  lastMessage : Nat → Option AgentMessage

/-- The polling loop of `_poll_run_and_show_progress`.  `elapsed` is
the wall-clock seconds accumulated by the inter-poll sleeps (each sleep
adds `interval`); the loop compares it against `timeout` exactly where
the source compares `time.time() - start_time` against `timeout_sec`:
after the sleep in the two fetch-error branches, and before the sleep
in the queued/in-progress branch.  `fuel` bounds the number of
iterations; `none` means the bound was reached before the loop
stopped. -/
def pollLoop (env : PollEnv) (interval timeout : Nat) :
    Nat → Nat → Nat → DedupState → Option (List Emission)
  | 0, _, _, _ => none
  | fuel + 1, n, elapsed, st =>
    match env.fetchRun n with
    | .httpErr m =>
      if elapsed + interval > timeout then
        some [.statusFetchError m, .timeoutNotice]
      else
        (pollLoop env interval timeout fuel (n + 1) (elapsed + interval) st).map
          (fun ems => .statusFetchError m :: ems)
    | .otherErr m =>
      if elapsed + interval > timeout then
        some [.unexpectedError m, .timeoutNotice]
      else
        (pollLoop env interval timeout fuel (n + 1) (elapsed + interval) st).map
          (fun ems => .unexpectedError m :: ems)
    | .ok status lastError =>
      if status = "queued" ∨ status = "in_progress" then
        let p := progressStep (env.lastMessage n) st
        if elapsed > timeout then some (p.1 ++ [.timeoutNotice])
        else
          (pollLoop env interval timeout fuel (n + 1) (elapsed + interval) p.2).map
            (fun ems => p.1 ++ ems)
      else if status = "failed" then
        some ([.runFailed] ++
          (match lastError with | some e => [.failDetail e] | none => []))
      else some []

/-- The reasoning-summary texts among a list of emissions, in order. -/
def cotTexts : List Emission → List String
  | [] => []
  | .cotBlock s :: rest => s :: cotTexts rest
  | _ :: rest => cotTexts rest

/-- Number of timeout notices among a list of emissions. -/
def countTimeouts : List Emission → Nat
  | [] => 0
  | .timeoutNotice :: rest => countTimeouts rest + 1
  | _ :: rest => countTimeouts rest


def c4Env : PollEnv where
  fetchRun := fun k => if k < 2 then .ok "in_progress" none else .ok "completed" none
  lastMessage := fun _ => some ⟨["cot_summary: analyzing sources"], []⟩

def stuckEnv : PollEnv where
  fetchRun := fun _ => .ok "in_progress" none
  lastMessage := fun _ => none

end DR

namespace RT

/-- An inbound delta payload as the handlers of
`azure_realtimeapi_agent/app.py` see it: a string value, a value of
some other type, or an absent attribute (`getattr(event, "delta",
None)` yields `None`).  `isinstance(delta, str) and delta` is true
exactly for `str s` with `s` non-empty. -/
inductive Payload where
  | str (s : String)
  | nonString
  | absent
deriving DecidableEq, Repr

/-- The session turn state: the `cl.user_session` keys
`is_generating`, `is_playing`, `text_stream_locked`, `track_id`,
`current_response_message` and `current_user_message`.  Open message
bubbles are embedded as their accumulated text. -/
structure TurnState where
  isGenerating : Bool
  isPlaying : Bool
  textStreamLocked : Bool
  trackId : String
  currentResponseMsg : Option String
  currentUserMsg : Option String
deriving DecidableEq, Repr

/-- One primitive operation performed by a handler, in program order:
UI calls, transport calls, and session-state writes. -/
inductive RTOp where
  | createAgentBubble
  | appendAgentToken (s : String)
  | finalizeAgentMsg
  | createUserBubble
  | appendUserToken (s : String)
  | finalizeUserMsg
  | oneShotUserMsg (s : String)
  | playAudioChunk (track : String)
  | audioInterrupt
  | cancelResponse
  | setTrackId (s : String)
  | setGenerating (b : Bool)
  | setPlaying (b : Bool)
  | setTextStreamLocked (b : Bool)
  | submitUserItem (s : String)
  | createResponse
deriving DecidableEq, Repr

/-- Effect of one operation on the turn state (UI/transport calls do
not change it). -/
def applyOp (st : TurnState) : RTOp → TurnState
  | .createAgentBubble => { st with currentResponseMsg := some "" }
  | .appendAgentToken s =>
    { st with currentResponseMsg := st.currentResponseMsg.map (fun m => m ++ s) }
  | .finalizeAgentMsg => { st with currentResponseMsg := none }
  | .createUserBubble => { st with currentUserMsg := some "" }
  | .appendUserToken s =>
    { st with currentUserMsg := st.currentUserMsg.map (fun m => m ++ s) }
  | .finalizeUserMsg => { st with currentUserMsg := none }
  | .setTrackId s => { st with trackId := s }
  | .setGenerating b => { st with isGenerating := b }
  | .setPlaying b => { st with isPlaying := b }
  | .setTextStreamLocked b => { st with textStreamLocked := b }
  | _ => st

/-- Run a handler trace over the turn state. -/
def runOps (st : TurnState) (ops : List RTOp) : TurnState :=
  ops.foldl applyOp st

/-- `_stream_agent_text`: open the agent bubble if absent, then append
the token. -/
def streamAgentText (st : TurnState) (delta : String) : List RTOp :=
  match st.currentResponseMsg with
  | none => [.createAgentBubble, .appendAgentToken delta]
  | some _ => [.appendAgentToken delta]

/-- `_handle_agent_text_delta`: for a non-empty string delta, set
`text_stream_locked` and stream the token; otherwise do nothing. -/
def handleAgentTextDelta (st : TurnState) (delta : Payload) : List RTOp :=
  match delta with
  | .str s => if s = "" then [] else .setTextStreamLocked true :: streamAgentText st s
  | _ => []

/-- `_handle_agent_audio_transcript_delta`: stream the token only when
`text_stream_locked` is false and the delta is a non-empty string. -/
def handleAgentTranscriptDelta (st : TurnState) (delta : Payload) : List RTOp :=
  if st.textStreamLocked then []
  else
    match delta with
    | .str s => if s = "" then [] else streamAgentText st s
    | _ => []

/-- `_handle_user_transcription_delta`: for a non-empty string delta,
open the user bubble if absent and append; otherwise do nothing. -/
def handleUserTransDelta (st : TurnState) (delta : Payload) : List RTOp :=
  match delta with
  | .str s =>
    if s = "" then []
    else
      match st.currentUserMsg with
      | none => [.createUserBubble, .appendUserToken s]
      | some _ => [.appendUserToken s]
  | _ => []

/-- `on_message` with an established connection: if a response is
generating or audio is playing, cancel the response, signal an audio
interrupt, rotate `track_id` to the supplied fresh id, clear both
flags and finalize an open agent message; then submit the user text as
a conversation item, request a response, and mark generating. -/
def onMessage (st : TurnState) (connected : Bool) (text freshId : String) :
    List RTOp :=
  if !connected then []
  else
    (if st.isGenerating || st.isPlaying then
      [.cancelResponse, .audioInterrupt, .setTrackId freshId,
       .setGenerating false, .setPlaying false]
      ++ (match st.currentResponseMsg with
          | some _ => [.finalizeAgentMsg]
          | none => [])
    else [])
    ++ [.submitUserItem text, .createResponse, .setGenerating true]

end RT

namespace FC

/-- A JSON value as produced by `json.loads`.  Number literals keep
their source lexeme. -/
inductive Json where
  | null
  | bool (b : Bool)
  | num (lit : String)
  | str (s : String)
  | arr (xs : List Json)
  | obj (fields : List (String × Json))

/-- JSON whitespace. -/
def jsonWs (c : Char) : Bool :=
  c = ' ' || c = '\t' || c = '\n' || c = '\r'

def hexVal (c : Char) : Option Nat :=
  if c.isDigit then some (c.toNat - 48)
  else if 'a' ≤ c && c ≤ 'f' then some (c.toNat - 87)
  else if 'A' ≤ c && c ≤ 'F' then some (c.toNat - 55)
  else none

/-- Body of a JSON string after the opening quote; handles the
standard escapes.  The fuel is at least the remaining length. -/
def parseStringBody : Nat → List Char → List Char → Except String (String × List Char)
  | 0, _, _ => .error "Unterminated string"
  | fuel + 1, acc, cs =>
    match cs with
    | [] => .error "Unterminated string"
    | c :: rest =>
      if c = '"' then .ok (String.mk acc.reverse, rest)
      else if c = '\\' then
        match rest with
        | [] => .error "Unterminated string"
        | e :: rest2 =>
          if e = '"' then parseStringBody fuel ('"' :: acc) rest2
          else if e = '\\' then parseStringBody fuel ('\\' :: acc) rest2
          else if e = '/' then parseStringBody fuel ('/' :: acc) rest2
          else if e = 'n' then parseStringBody fuel ('\n' :: acc) rest2
          else if e = 't' then parseStringBody fuel ('\t' :: acc) rest2
          else if e = 'r' then parseStringBody fuel ('\r' :: acc) rest2
          else if e = 'b' then parseStringBody fuel (Char.ofNat 8 :: acc) rest2
          else if e = 'f' then parseStringBody fuel (Char.ofNat 12 :: acc) rest2
          else if e = 'u' then
            match rest2 with
            | h1 :: h2 :: h3 :: h4 :: rest3 =>
              match hexVal h1, hexVal h2, hexVal h3, hexVal h4 with
              | some a, some b, some c2, some d =>
                parseStringBody fuel
                  (Char.ofNat (((a * 16 + b) * 16 + c2) * 16 + d) :: acc) rest3
              | _, _, _, _ => .error "Invalid unicode escape"
            | _ => .error "Invalid unicode escape"
          else .error "Invalid escape"
      else parseStringBody fuel (c :: acc) rest

/-- Characters that may appear in a JSON number lexeme. -/
def numChar (c : Char) : Bool :=
  c.isDigit || c = '-' || c = '+' || c = '.' || c = 'e' || c = 'E'

mutual

/-- Parse a JSON value; `fuel` bounds the nesting/member recursion and
is chosen at least the input length by `parseJson`.  Errors are the
model of the `json.JSONDecodeError` texts. -/
def parseVal : Nat → List Char → Except String (Json × List Char)
  | 0, _ => .error "Expecting value"
  | fuel + 1, cs0 =>
    let cs := cs0.dropWhile jsonWs
    match cs with
    | [] => .error "Expecting value"
    | c :: rest =>
      if c = '"' then
        match parseStringBody (rest.length + 1) [] rest with
        | .ok (s, rest2) => .ok (.str s, rest2)
        | .error e => .error e
      else if c = 't' then
        if rest.take 3 = ['r', 'u', 'e'] then .ok (.bool true, rest.drop 3)
        else .error "Expecting value"
      else if c = 'f' then
        if rest.take 4 = ['a', 'l', 's', 'e'] then .ok (.bool false, rest.drop 4)
        else .error "Expecting value"
      else if c = 'n' then
        if rest.take 3 = ['u', 'l', 'l'] then .ok (.null, rest.drop 3)
        else .error "Expecting value"
      else if c = Char.ofNat 123 then
        match (rest.dropWhile jsonWs) with
        | d :: rest2 =>
          if d = Char.ofNat 125 then .ok (.obj [], rest2)
          else
            match parseMembers fuel (rest.dropWhile jsonWs) with
            | .ok (fields, rest3) => .ok (.obj fields, rest3)
            | .error e => .error e
        | [] => .error "Expecting property name enclosed in double quotes"
      else if c = '[' then
        match (rest.dropWhile jsonWs) with
        | d :: rest2 =>
          if d = ']' then .ok (.arr [], rest2)
          else
            match parseElems fuel (rest.dropWhile jsonWs) with
            | .ok (xs, rest3) => .ok (.arr xs, rest3)
            | .error e => .error e
        | [] => .error "Expecting value"
      else if c.isDigit || c = '-' then
        let lit := cs.takeWhile numChar
        if lit.any Char.isDigit then .ok (.num (String.mk lit), cs.dropWhile numChar)
        else .error "Expecting value"
      else .error "Expecting value"

def parseMembers : Nat → List Char → Except String (List (String × Json) × List Char)
  | 0, _ => .error "Expecting property name enclosed in double quotes"
  | fuel + 1, cs0 =>
    let cs := cs0.dropWhile jsonWs
    match cs with
    | '"' :: rest =>
      match parseStringBody (rest.length + 1) [] rest with
      | .error e => .error e
      | .ok (key, rest2) =>
        match rest2.dropWhile jsonWs with
        | ':' :: rest3 =>
          match parseVal fuel rest3 with
          | .error e => .error e
          | .ok (v, rest4) =>
            match rest4.dropWhile jsonWs with
            | ',' :: rest5 =>
              match parseMembers fuel rest5 with
              | .ok (fields, rest6) => .ok ((key, v) :: fields, rest6)
              | .error e => .error e
            | d :: rest5 =>
              if d = Char.ofNat 125 then .ok ([(key, v)], rest5)
              else .error "Expecting delimiter"
            | [] => .error "Expecting delimiter"
        | _ => .error "Expecting colon delimiter"
    | _ => .error "Expecting property name enclosed in double quotes"

def parseElems : Nat → List Char → Except String (List Json × List Char)
  | 0, _ => .error "Expecting value"
  | fuel + 1, cs0 =>
    match parseVal fuel cs0 with
    | .error e => .error e
    | .ok (v, rest) =>
      match rest.dropWhile jsonWs with
      | ',' :: rest2 =>
        match parseElems fuel rest2 with
        | .ok (xs, rest3) => .ok (v :: xs, rest3)
        | .error e => .error e
      | ']' :: rest2 => .ok ([v], rest2)
      | _ => .error "Expecting delimiter"

end

/-- `json.loads`: parse one value and require only whitespace after
it. -/
def parseJson (s : String) : Except String Json :=
  match parseVal (s.length + 1) s.toList with
  | .error e => .error e
  | .ok (v, rest) =>
    if (rest.dropWhile jsonWs).isEmpty then .ok v else .error "Extra data"

/-- The dummy weather table of `get_weather` with its default entry. -/
def weatherPatterns (loc : String) : String × String × String :=
  if loc = "東京" then ("晴れ", "25", "60")
  else if loc = "大阪" then ("曇り", "23", "65")
  else if loc = "札幌" then ("雨", "18", "75")
  else if loc = "福岡" then ("晴れ", "26", "55")
  else ("晴れのち曇り", "24", "62")

/-- `get_weather`: normalize the location, look up the dummy pattern,
and return the result dictionary (the `asyncio.sleep` is dropped; the
function is otherwise pure). -/
def get_weather (location : String) (date : Option String) : Json :=
  let dateDisplay :=
    match date with
    | some d => if d = "" then "今日" else d
    | none => "今日"
  let locationNormalized := ((location.replace "市" "").replace "都" "").trim
  let w := weatherPatterns locationNormalized
  Json.obj
    [("location", .str location),
     ("date", .str dateDisplay),
     ("weather", .str w.1),
     ("temperature", .str w.2.1),
     ("humidity", .str w.2.2),
     ("forecast", .str (location ++ "の" ++ dateDisplay ++ "の天気は" ++ w.1
        ++ "、気温は" ++ w.2.1 ++ "度、湿度は" ++ w.2.2 ++ "%の予報です。"))]

/-- `search_database`: the three dummy results and the summary (the
20-second `asyncio.sleep` is dropped; the function is otherwise
pure). -/
def search_database (query : String) (category : Option String) : Json :=
  let results : List Json :=
    [Json.obj [("id", .num "1"), ("title", .str (query ++ "に関する最新の研究論文")),
       ("summary", .str "2025年の最新データに基づく包括的な分析結果です。"),
       ("relevance", .str "95%")],
     Json.obj [("id", .num "2"), ("title", .str (query ++ "の実践的なガイドライン")),
       ("summary", .str "業界標準のベストプラクティスをまとめたドキュメントです。"),
       ("relevance", .str "88%")],
     Json.obj [("id", .num "3"), ("title", .str (query ++ "に関するケーススタディ")),
       ("summary", .str "実際の導入事例と成果について詳しく解説しています。"),
       ("relevance", .str "82%")]]
  let categoryText :=
    match category with
    | some c => if c = "" then "" else " (カテゴリ: " ++ c ++ ")"
    | none => ""
  Json.obj
    [("query", .str query),
     ("category", match category with | some c => .str c | none => .null),
     ("total_results", .num "3"),
     ("results", .arr results),
     ("summary", .str ("「" ++ query ++ "」" ++ categoryText
        ++ "に関して3件の結果が見つかりました。検索には20秒かかりました。"))]

/-- Field lookup on a parsed JSON object. -/
def getField : Json → String → Option Json
  | .obj fields, key => (fields.find? (fun p => p.1 = key)).map (fun p => p.2)
  | _, _ => none

/-- `args.get(key, "")` for a required string argument.  A non-object
payload raises in `args.get`, and a non-string value raises inside the
tool body (for example `location.replace`); both raised paths are the
error case, which the caller converts into the structured error
payload. -/
def argStr (args : Json) (key : String) : Except String String :=
  match args with
  | .obj _ =>
    match getField args key with
    | none => .ok ""
    | some (.str s) => .ok s
    | some _ => .error "AttributeError"
  | _ => .error "AttributeError"

/-- `args.get(key)` for an optional string argument; absent and `null`
are `None`.  Non-string values are approximated as absent (the source
would stringify them later; no claim depends on that corner). -/
def argOptStr (args : Json) (key : String) : Except String (Option String) :=
  match args with
  | .obj _ =>
    match getField args key with
    | none => .ok none
    | some .null => .ok none
    | some (.str s) => .ok (some s)
    | some _ => .ok none
  | _ => .error "AttributeError"

/-- `_execute_function_call`: parse the argument string as JSON and
dispatch on the function name; an unknown name yields the
`Unknown function: ...` error payload, and any exception raised while
parsing or executing is converted into an error payload.  The result
is the payload that the source serializes with
`json.dumps(..., ensure_ascii=False)`. -/
def _execute_function_call (name arguments : String) : Json :=
  match parseJson arguments with
  | .error e => Json.obj [("error", Json.str e)]
  | .ok args =>
    if name = "get_weather" then
      match argStr args "location", argOptStr args "date" with
      | .ok loc, .ok date => get_weather loc date
      | .error e, _ => Json.obj [("error", Json.str e)]
      | _, .error e => Json.obj [("error", Json.str e)]
    else if name = "search_database" then
      match argStr args "query", argOptStr args "category" with
      | .ok q, .ok cat => search_database q cat
      | .error e, _ => Json.obj [("error", Json.str e)]
      | _, .error e => Json.obj [("error", Json.str e)]
    else Json.obj [("error", Json.str ("Unknown function: " ++ name))]

/-- One entry of `pending_function_calls`: created on the first
argument-delta for a call id with `name` empty, the append-only
argument buffer, and the captured `item_id`. -/
structure PendingCall where
  name : String
  args : String
  itemId : Option String
deriving DecidableEq, Repr

/-- The function-call part of the session: the pending-call mapping
(`pending_function_calls`, insertion-ordered as a Python dict) and the
dispatches handed to `_execute_function_call_async`, each recording
the call id, the `name` attribute of the done event, and the argument
string passed on. -/
structure FCState where
  pending : List (String × PendingCall)
  executed : List (String × Option String × String)
deriving DecidableEq, Repr

/-- The two function-call events of the realtime stream:
`response.function_call_arguments.delta` and `.done`, with the
attributes the handlers read (`None` modelled as `none`). -/
inductive FCEvent where
  | argsDelta (callId : Option String) (delta : String) (itemId : Option String)
  | argsDone (callId : Option String) (name : Option String) (args : String)
      (itemId : Option String)
deriving DecidableEq, Repr

/-- Lookup in the pending-call mapping. -/
def getPending : List (String × PendingCall) → String → Option PendingCall
  | [], _ => none
  | p :: ps, c => if p.1 = c then some p.2 else getPending ps c

/-- Create-if-absent then append the fragment to the argument buffer
(dict insertion order preserved; new keys go to the end). -/
def updatePending : List (String × PendingCall) → String → String → Option String →
    List (String × PendingCall)
  | [], c, d, it => [(c, ⟨"", d, it⟩)]
  | p :: ps, c, d, it =>
    if p.1 = c then (p.1, { p.2 with args := p.2.args ++ d }) :: ps
    else p :: updatePending ps c d it

/-- `_handle_function_call_arguments_delta`: a truthy `call_id` gets
its entry created if absent and the fragment appended. -/
def handleArgsDelta (st : FCState) (callId : Option String) (delta : String)
    (itemId : Option String) : FCState :=
  match callId with
  | some c =>
    if c = "" then st
    else { st with pending := updatePending st.pending c delta itemId }
  | none => st

/-- `_handle_function_call_arguments_done`: for a truthy `call_id`
with a live connection, dispatch `_execute_function_call_async` with
the done event's own `name` and `arguments`, then remove the pending
entry. -/
def handleArgsDone (connected : Bool) (st : FCState) (callId name : Option String)
    (args : String) : FCState :=
  match callId with
  | some c =>
    if c = "" then st
    else if connected then
      { st with
        executed := st.executed ++ [(c, name, args)],
        pending := st.pending.filter (fun p => !(p.1 = c)) }
    else st
  | none => st

/-- Dispatch of one function-call event by `_receive_events_loop`. -/
def processEvent (connected : Bool) (st : FCState) : FCEvent → FCState
  | .argsDelta callId delta itemId => handleArgsDelta st callId delta itemId
  | .argsDone callId name args _ => handleArgsDone connected st callId name args

/-- Process a stream of function-call events in arrival order. -/
def processEvents (connected : Bool) (st : FCState) (evs : List FCEvent) : FCState :=
  evs.foldl (processEvent connected) st

/-- Concatenation, in arrival order, of the argument-delta fragments
for one call identifier. -/
def deltasFor (c : String) : List FCEvent → String
  | [] => ""
  | .argsDelta (some cid) d _ :: rest =>
    (if cid = c then d else "") ++ deltasFor c rest
  | _ :: rest => deltasFor c rest

/-- Whether an event is the argument-done event of call id `c`. -/
def isDoneFor (c : String) : FCEvent → Bool
  | .argsDone (some cid) _ _ _ => cid = c
  | _ => false

/-- The aggregated argument buffer for a call id (empty if absent). -/
def bufferedArgs (st : FCState) (c : String) : String :=
  match getPending st.pending c with
  | some pc => pc.args
  | none => ""

def tokyoEvs : List FCEvent :=
  [.argsDelta (some "c1") "\x7b\"loc" (some "item-1"),
   .argsDelta (some "c1") "ation\":\"Tokyo\"\x7d" (some "item-1")]

/-- One action performed by a detached `_execute_function_call_async`
task: the tool-step UI rendering, the `function_call_output` item fed
back into the conversation, and a `response.create` request (the
success path passes instructions, the error path does not). -/
inductive ExecAction where
  | stepStart (name : Option String)
  | stepError
  | feedToolOutput (callId : String) (output : Json)
  | createResponse (withInstructions : Bool)

/-- How Python renders the `name` attribute (possibly `None`) when it
is passed to `_execute_function_call` and compared/formatted. -/
def showOptName : Option String → String
  | some n => n
  | none => "None"

/-- `_execute_function_call_async`: run the tool and feed the success
or error payload back as a `function_call_output` item; afterwards
request a new response only when `is_generating` is false, setting the
flag.  `exn` models an exception raised inside the `try` body (for
example a failing transport call); `none` is the normal path.  The
first component is the session's `is_generating` flag after the
task. -/
def _execute_function_call_async (isGenerating : Bool) (callId : String)
    (name : Option String) (arguments : String) (exn : Option String) :
    Bool × List ExecAction :=
  match exn with
  | none =>
    let result := _execute_function_call (showOptName name) arguments
    if isGenerating then
      (isGenerating, [.stepStart name, .feedToolOutput callId result])
    else
      (true, [.stepStart name, .feedToolOutput callId result, .createResponse true])
  | some e =>
    let errResult := Json.obj [("error", Json.str e)]
    if isGenerating then
      (isGenerating, [.stepStart name, .stepError, .feedToolOutput callId errResult])
    else
      (true, [.stepStart name, .stepError, .feedToolOutput callId errResult,
        .createResponse false])

end FC

namespace DR


theorem dedupFirstByUrl_subset {l : List Cite} {a : Cite}
    (h : a ∈ dedupFirstByUrl l) : a ∈ l := by
  induction l using dedupFirstByUrl.induct with
  | case1 => simp [dedupFirstByUrl] at h
  | case2 b rest ih =>
    rw [dedupFirstByUrl] at h
    rcases List.mem_cons.mp h with h | h
    · simp [h]
    · exact List.mem_cons_of_mem _ (List.mem_of_mem_filter (ih h))

theorem dedupFirstByUrl_nodup (l : List Cite) :
    ((dedupFirstByUrl l).map Cite.url).Nodup := by
  induction l using dedupFirstByUrl.induct with
  | case1 => simp [dedupFirstByUrl]
  | case2 b rest ih =>
    rw [dedupFirstByUrl]
    simp only [List.map_cons, List.nodup_cons]
    refine ⟨?_, ih⟩
    intro hm
    rcases List.mem_map.mp hm with ⟨c, hc, hurl⟩
    have hcf := dedupFirstByUrl_subset hc
    have := List.of_mem_filter hcf
    simp [hurl] at this

theorem buildReferences_go (anns : List Cite) (seen refs : List String) :
    (anns.foldl
      (fun (acc : List String × List String) a =>
        if a.url ∈ acc.1 then acc
        else (acc.1 ++ [a.url], acc.2 ++ [refLine a]))
      (seen, refs)).2
    = refs ++ (dedupFirstByUrl
        (anns.filter (fun a => !decide (a.url ∈ seen)))).map refLine := by
  induction anns generalizing seen refs with
  | nil => simp [dedupFirstByUrl]
  | cons a rest ih =>
    by_cases h : a.url ∈ seen
    · simp only [List.foldl_cons, if_pos h]
      rw [ih]
      have : (List.filter (fun a => !decide (a.url ∈ seen)) (a :: rest))
          = rest.filter (fun a => !decide (a.url ∈ seen)) := by
        simp [List.filter_cons, h]
      rw [this]
    · simp only [List.foldl_cons, if_neg h]
      rw [ih]
      have h1 : (List.filter (fun a => !decide (a.url ∈ seen)) (a :: rest))
          = a :: rest.filter (fun a => !decide (a.url ∈ seen)) := by
        simp [List.filter_cons, h]
      have h2 : rest.filter (fun b => !decide (b.url ∈ seen ++ [a.url]))
          = (rest.filter (fun b => !decide (b.url ∈ seen))).filter
              (fun b => !(b.url = a.url)) := by
        rw [List.filter_filter]
        apply List.filter_congr
        intro b _
        by_cases hb1 : b.url = a.url <;> by_cases hb2 : b.url ∈ seen <;>
          simp [hb1, hb2, List.mem_append]
      rw [h2, h1, dedupFirstByUrl]
      simp

/-- C6: the reference list rendered by `_display_final_results` equals
the map of the rendering function over the first-occurrence-per-URL
subsequence of the annotation list (so each distinct URL appears at
most once, in first-seen order, with the title — or URL fallback — of
its first occurrence), and the URLs of that subsequence are nodup. -/
theorem c6_references_dedup_first_seen (anns : List Cite) :
    buildReferences anns = (dedupFirstByUrl anns).map refLine
      ∧ ((dedupFirstByUrl anns).map Cite.url).Nodup := by
  constructor
  · have := buildReferences_go anns [] []
    simpa [buildReferences] using this
  · exact dedupFirstByUrl_nodup anns

/-- C1: once `_start_run` has succeeded for a session, a second
`_start_run` without an intervening `_end_run` fails with the
already-active error, creates no vendor run, and leaves exactly the
first run recorded as the single active run of the session. -/
theorem c1_run_guard_single_flight
    (s : DRSession) (id1 : String) (s2 : DRSession) (acts : List DRAction)
    (h : startRun s id1 = (.ok s2, acts)) :
    (∀ id2 : String, startRun s2 id2 = (.alreadyActive, []))
      ∧ s2.activeRunId = some id1 := by
  unfold startRun at h
  by_cases hact : isRunActive s
  · rw [if_pos hact] at h
    exact absurd (congrArg Prod.fst h) (by simp)
  · rw [if_neg hact] at h
    have hs2 := congrArg Prod.fst h
    simp only at hs2
    injection hs2 with hs2
    subst hs2
    constructor
    · intro id2
      simp [startRun, isRunActive]
    · rfl

/-- C1 witness: a concrete fresh session; the first start succeeds and
the second start fails with the already-active error. -/
theorem c1_run_guard_single_flight_witness :
    (∀ id2 : String,
      startRun ⟨some "run-1", [], []⟩ id2 = (.alreadyActive, []))
      ∧ (⟨some "run-1", [], []⟩ : DRSession).activeRunId = some "run-1" :=
  c1_run_guard_single_flight ⟨none, ["old"], ["old"]⟩ "run-1"
    ⟨some "run-1", [], []⟩ [.createRun "run-1"] rfl

theorem cotTexts_append (l1 l2 : List Emission) :
    cotTexts (l1 ++ l2) = cotTexts l1 ++ cotTexts l2 := by
  induction l1 with
  | nil => rfl
  | cons e rest ih => cases e <;> simp [cotTexts, ih]

theorem countTimeouts_append (l1 l2 : List Emission) :
    countTimeouts (l1 ++ l2) = countTimeouts l1 + countTimeouts l2 := by
  induction l1 with
  | nil => simp [countTimeouts]
  | cons e rest ih =>
    cases e <;> (simp [countTimeouts, ih]; try omega)

/-- The citation loop only appends `urlCitation` emissions and never
touches the cot set. -/
theorem urlStep_spec (cites : List Cite) (acc : List Emission × DedupState) :
    ∃ l, (urlStep cites acc).1 = acc.1 ++ l
      ∧ (∀ e ∈ l, ∃ s, e = Emission.urlCitation s)
      ∧ (urlStep cites acc).2.emittedCot = acc.2.emittedCot := by
  induction cites generalizing acc with
  | nil => exact ⟨[], by simp [urlStep]⟩
  | cons a rest ih =>
    rw [urlStep, List.foldl_cons]
    by_cases h : ("[" ++ citeTitle a ++ "](" ++ a.url ++ ")") ∈ acc.2.emittedUrl
    · simpa [urlStep, h] using ih acc
    · obtain ⟨l, hl1, hl2, hl3⟩ :=
        ih (acc.1 ++ [Emission.urlCitation ("[" ++ citeTitle a ++ "](" ++ a.url ++ ")")],
            { acc.2 with emittedUrl :=
                acc.2.emittedUrl ++ ["[" ++ citeTitle a ++ "](" ++ a.url ++ ")"] })
      refine ⟨Emission.urlCitation ("[" ++ citeTitle a ++ "](" ++ a.url ++ ")") :: l, ?_, ?_, ?_⟩
      · rw [urlStep] at hl1
        simp only [urlStep, h, if_neg, ite_false]
        rw [hl1]
        simp
      · intro e he
        rcases List.mem_cons.mp he with rfl | he
        · exact ⟨_, rfl⟩
        · exact hl2 e he
      · rw [urlStep] at hl3
        simpa [urlStep, h] using hl3

theorem cotTexts_of_url_only {l : List Emission}
    (h : ∀ e ∈ l, ∃ s, e = Emission.urlCitation s) : cotTexts l = [] := by
  induction l with
  | nil => rfl
  | cons e rest ih =>
    obtain ⟨s, rfl⟩ := h e (List.mem_cons_self e rest)
    exact (by simpa [cotTexts] using ih (fun e he => h e (List.mem_cons_of_mem _ he)))

/-- One progress pass: the cot set grows by exactly the cot texts it
emits, and those were not in the set before. -/
theorem progressStep_cot (msg : Option AgentMessage) (st : DedupState) :
    (progressStep msg st).2.emittedCot
        = st.emittedCot ++ cotTexts (progressStep msg st).1
      ∧ (cotTexts (progressStep msg st).1).Nodup
      ∧ ∀ b ∈ cotTexts (progressStep msg st).1, b ∉ st.emittedCot := by
  match msg with
  | none => simp [progressStep, cotTexts]
  | some m =>
    by_cases hm : m.textMessages = []
    · simp [progressStep, hm, cotTexts]
    · simp only [progressStep, hm, if_neg, ite_false]
      obtain ⟨l, hl1, hl2, hl3⟩ := urlStep_spec m.urlCitations (cotStep (joinedText m) st)
      rw [hl1, hl3, cotTexts_append, cotTexts_of_url_only hl2, List.append_nil]
      unfold cotStep
      match hext : extractCot (joinedText m) with
      | none => simp [cotTexts]
      | some content =>
        by_cases hc : content = ""
        · simp [hc, cotTexts]
        · by_cases hb : ("cot_summary: " ++ content) ∈ st.emittedCot
          · simp [hc, hb, cotTexts]
          · simp [hc, hb, cotTexts, List.nodup_cons]

/-- One progress pass emits only cot blocks and URL citations. -/
theorem progressStep_only_progress (msg : Option AgentMessage) (st : DedupState) :
    ∀ e ∈ (progressStep msg st).1,
      (∃ s, e = Emission.cotBlock s) ∨ (∃ s, e = Emission.urlCitation s) := by
  match msg with
  | none => simp [progressStep]
  | some m =>
    by_cases hm : m.textMessages = []
    · simp [progressStep, hm]
    · simp only [progressStep, hm, if_neg, ite_false]
      obtain ⟨l, hl1, hl2, -⟩ := urlStep_spec m.urlCitations (cotStep (joinedText m) st)
      rw [hl1]
      intro e he
      rcases List.mem_append.mp he with he | he
      · unfold cotStep at he
        match hext : extractCot (joinedText m) with
        | none => rw [hext] at he; simp at he
        | some content =>
          rw [hext] at he
          by_cases hc : content = ""
          · simp [hc] at he
          · by_cases hb : ("cot_summary: " ++ content) ∈ st.emittedCot
            · simp [hc, hb] at he
            · simp [hc, hb] at he
              exact Or.inl ⟨_, he⟩
      · exact Or.inr (hl2 e he)

theorem countTimeouts_of_progress {l : List Emission}
    (h : ∀ e ∈ l, (∃ s, e = Emission.cotBlock s) ∨ (∃ s, e = Emission.urlCitation s)) :
    countTimeouts l = 0 ∧ Emission.cancelRun ∉ l := by
  induction l with
  | nil => simp [countTimeouts]
  | cons e rest ih =>
    obtain ⟨h0, h1⟩ := ih (fun e he => h e (List.mem_cons_of_mem _ he))
    rcases h e (List.mem_cons_self e rest) with ⟨s, rfl⟩ | ⟨s, rfl⟩ <;>
      simp [countTimeouts, h0, h1]

/-- Across a whole polling run, no cot text is emitted twice, and no
cot text already in the initial deduplication set is emitted. -/
theorem pollLoop_cot_nodup (env : PollEnv) (interval timeout : Nat) :
    ∀ (fuel n elapsed : Nat) (st : DedupState) (ems : List Emission),
      pollLoop env interval timeout fuel n elapsed st = some ems →
      (cotTexts ems).Nodup ∧ ∀ b ∈ cotTexts ems, b ∉ st.emittedCot := by
  intro fuel
  induction fuel with
  | zero => intro n elapsed st ems h; simp [pollLoop] at h
  | succ f ih =>
    intro n elapsed st ems h
    rw [pollLoop] at h
    split at h
    · -- fetch raised HttpResponseError
      split at h
      · cases h; simp [cotTexts]
      · rcases Option.map_eq_some'.mp h with ⟨rems, hrec, rfl⟩
        simpa [cotTexts] using ih (n + 1) (elapsed + interval) st rems hrec
    · -- fetch raised another exception
      split at h
      · cases h; simp [cotTexts]
      · rcases Option.map_eq_some'.mp h with ⟨rems, hrec, rfl⟩
        simpa [cotTexts] using ih (n + 1) (elapsed + interval) st rems hrec
    · -- run fetched
      rename_i status lastError heq
      split at h
      · -- queued / in progress
        obtain ⟨hgrow, hnd, hfresh⟩ := progressStep_cot (env.lastMessage n) st
        split at h
        · -- timeout reached: progress emissions then the notice
          cases h
          rw [cotTexts_append]
          refine ⟨by simpa [cotTexts] using hnd, ?_⟩
          intro b hb
          simp only [cotTexts, List.append_nil] at hb
          exact hfresh b hb
        · rcases Option.map_eq_some'.mp h with ⟨rems, hrec, rfl⟩
          obtain ⟨ihnd, ihfresh⟩ := ih (n + 1) (elapsed + interval) _ rems hrec
          rw [cotTexts_append]
          constructor
          · rw [List.nodup_append]
            refine ⟨hnd, ihnd, ?_⟩
            intro b hb1 hb2
            have hmem := ihfresh b hb2
            rw [hgrow] at hmem
            exact hmem (List.mem_append.mpr (Or.inr hb1))
          · intro b hb
            rcases List.mem_append.mp hb with hb | hb
            · exact hfresh b hb
            · have hmem := ihfresh b hb
              rw [hgrow] at hmem
              exact fun hin => hmem (List.mem_append.mpr (Or.inl hin))
      · -- terminal status
        split at h
        · cases h
          match lastError with
          | some e => simp [cotTexts]
          | none => simp [cotTexts]
        · cases h; simp [cotTexts]

/-- C4: for a run started by `_start_run` on any session, the poll loop
never emits the same reasoning-summary block text twice within the run,
and `_start_run` resets both deduplication sets to empty, so emission
is suppressed only by blocks of the new run itself. -/
theorem c4_progress_dedup_and_reset
    (s : DRSession) (runId : String) (s2 : DRSession) (acts : List DRAction)
    (env : PollEnv) (interval timeout fuel n elapsed : Nat) (ems : List Emission)
    (hstart : startRun s runId = (.ok s2, acts))
    (hrun : pollLoop env interval timeout fuel n elapsed
      ⟨s2.emittedCot, s2.emittedUrl⟩ = some ems) :
    (cotTexts ems).Nodup ∧ s2.emittedCot = [] ∧ s2.emittedUrl = [] := by
  have h2 : s2.emittedCot = [] ∧ s2.emittedUrl = [] := by
    unfold startRun at hstart
    by_cases hact : isRunActive s
    · rw [if_pos hact] at hstart
      exact absurd (congrArg Prod.fst hstart) (by simp)
    · rw [if_neg hact] at hstart
      have hs2 := congrArg Prod.fst hstart
      simp only at hs2
      injection hs2 with hs2
      subst hs2
      exact ⟨rfl, rfl⟩
  exact ⟨(pollLoop_cot_nodup env interval timeout fuel n elapsed _ ems hrun).1, h2⟩

/-- C4 witness: a concrete two-poll run in which the identical
`cot_summary: analyzing sources` block is visible on both polls emits
it exactly once, starting from the freshly reset session. -/
theorem c4_progress_dedup_and_reset_witness :
    (cotTexts [Emission.cotBlock "cot_summary: analyzing sources"]).Nodup
      ∧ (⟨some "r1", [], []⟩ : DRSession).emittedCot = []
      ∧ (⟨some "r1", [], []⟩ : DRSession).emittedUrl = [] :=
  c4_progress_dedup_and_reset ⟨none, ["stale"], ["stale"]⟩ "r1"
    ⟨some "r1", [], []⟩ [.createRun "r1"] c4Env 2 100 10 0 0
    [Emission.cotBlock "cot_summary: analyzing sources"] rfl (by decide)


theorem pollLoop_step_stuck (env : PollEnv) (interval timeout f n elapsed : Nat)
    (st : DedupState) (status : String) (d : Option String)
    (hok : env.fetchRun n = .ok status d)
    (hst : status = "queued" ∨ status = "in_progress") :
    pollLoop env interval timeout (f + 1) n elapsed st =
      if elapsed > timeout then
        some ((progressStep (env.lastMessage n) st).1 ++ [.timeoutNotice])
      else
        (pollLoop env interval timeout f (n + 1) (elapsed + interval)
          (progressStep (env.lastMessage n) st).2).map
          (fun ems => (progressStep (env.lastMessage n) st).1 ++ ems) := by
  rw [pollLoop, hok]
  simp only [if_pos hst]

/-- C7: when every status fetch of a run reports `queued` or
`in_progress`, the loop terminates once the elapsed time exceeds the
timeout, having emitted exactly one timeout notice and never a run
cancellation. -/
theorem c7_timeout_notice_once
    (env : PollEnv) (interval timeout fuel n elapsed : Nat) (st : DedupState)
    (hpos : 0 < interval) (h1 : 1 ≤ fuel)
    (hfuel : timeout + 2 ≤ fuel + elapsed)
    (hstuck : ∀ k, ∃ status d, env.fetchRun k = .ok status d
      ∧ (status = "queued" ∨ status = "in_progress")) :
    ∃ ems, pollLoop env interval timeout fuel n elapsed st = some ems
      ∧ countTimeouts ems = 1 ∧ Emission.cancelRun ∉ ems := by
  induction fuel generalizing n elapsed st with
  | zero => omega
  | succ f ih =>
    obtain ⟨status, d, hok, hst⟩ := hstuck n
    obtain ⟨hcnt, hmem⟩ :=
      countTimeouts_of_progress (progressStep_only_progress (env.lastMessage n) st)
    rw [pollLoop_step_stuck env interval timeout f n elapsed st status d hok hst]
    by_cases ht : elapsed > timeout
    · refine ⟨(progressStep (env.lastMessage n) st).1 ++ [.timeoutNotice],
        by rw [if_pos ht], ?_, ?_⟩
      · rw [countTimeouts_append, hcnt, countTimeouts]
        rfl
      · intro hin
        rcases List.mem_append.mp hin with hc | hc
        · exact hmem hc
        · simp at hc
    · obtain ⟨rems, hrec, hcnt2, hmem2⟩ :=
        ih (n + 1) (elapsed + interval) (progressStep (env.lastMessage n) st).2
          (by omega) (by omega)
      refine ⟨(progressStep (env.lastMessage n) st).1 ++ rems, ?_, ?_, ?_⟩
      · rw [if_neg ht, hrec]
        rfl
      · rw [countTimeouts_append, hcnt, hcnt2]
      · intro hin
        rcases List.mem_append.mp hin with hc | hc
        · exact hmem hc
        · exact hmem2 hc

/-- C7 witness: timeout 5 seconds, poll interval 2 seconds, a run that
never leaves `in_progress`: the loop terminates with exactly one
timeout notice and no cancellation. -/
theorem c7_timeout_notice_once_witness :
    ∃ ems, pollLoop stuckEnv 2 5 10 0 0 ⟨[], []⟩ = some ems
      ∧ countTimeouts ems = 1 ∧ Emission.cancelRun ∉ ems :=
  c7_timeout_notice_once stuckEnv 2 5 10 0 0 ⟨[], []⟩ (by decide) (by decide)
    (by decide) (fun k => ⟨"in_progress", none, rfl, Or.inr rfl⟩)

end DR

namespace RT

/-- C3: on a new user text message while generating or playing,
`on_message` cancels the response, signals the audio interrupt, rotates
the track id to the fresh value, clears both flags and leaves no open
agent message — all strictly before the operation that submits the new
user input to the conversation. -/
theorem c3_barge_in_before_submit (st : TurnState) (text freshId : String)
    (hbusy : st.isGenerating = true ∨ st.isPlaying = true)
    (hfresh : freshId ≠ st.trackId) :
    ∃ pre post, onMessage st true text freshId
        = pre ++ RTOp.submitUserItem text :: post
      ∧ RTOp.cancelResponse ∈ pre
      ∧ RTOp.audioInterrupt ∈ pre
      ∧ (runOps st pre).trackId = freshId
      ∧ (runOps st pre).trackId ≠ st.trackId
      ∧ (runOps st pre).isGenerating = false
      ∧ (runOps st pre).isPlaying = false
      ∧ (runOps st pre).currentResponseMsg = none
      ∧ (st.currentResponseMsg.isSome → RTOp.finalizeAgentMsg ∈ pre) := by
  have hg : (st.isGenerating || st.isPlaying) = true := by
    rcases hbusy with h | h <;> simp [h]
  match hmsg : st.currentResponseMsg with
  | none =>
    refine ⟨[.cancelResponse, .audioInterrupt, .setTrackId freshId,
      .setGenerating false, .setPlaying false],
      [.createResponse, .setGenerating true], ?_, ?_, ?_, ?_, ?_, ?_, ?_, ?_, ?_⟩
    · simp [onMessage, hg, hmsg]
    · simp
    · simp
    · simp [runOps, applyOp]
    · simpa [runOps, applyOp] using hfresh
    · simp [runOps, applyOp]
    · simp [runOps, applyOp]
    · simp [runOps, applyOp, hmsg]
    · simp [hmsg]
  | some m =>
    refine ⟨[.cancelResponse, .audioInterrupt, .setTrackId freshId,
      .setGenerating false, .setPlaying false, .finalizeAgentMsg],
      [.createResponse, .setGenerating true], ?_, ?_, ?_, ?_, ?_, ?_, ?_, ?_, ?_⟩
    · simp [onMessage, hg, hmsg]
    · simp
    · simp
    · simp [runOps, applyOp]
    · simpa [runOps, applyOp] using hfresh
    · simp [runOps, applyOp]
    · simp [runOps, applyOp]
    · simp [runOps, applyOp]
    · simp

/-- C3 witness: concrete busy state with an open agent message. -/
theorem c3_barge_in_before_submit_witness :
    ∃ pre post,
      onMessage ⟨true, true, true, "track-0", some "partial", none⟩ true "hello" "track-1"
        = pre ++ RTOp.submitUserItem "hello" :: post
      ∧ RTOp.cancelResponse ∈ pre
      ∧ RTOp.audioInterrupt ∈ pre
      ∧ (runOps ⟨true, true, true, "track-0", some "partial", none⟩ pre).trackId = "track-1"
      ∧ (runOps ⟨true, true, true, "track-0", some "partial", none⟩ pre).trackId
          ≠ (⟨true, true, true, "track-0", some "partial", none⟩ : TurnState).trackId
      ∧ (runOps ⟨true, true, true, "track-0", some "partial", none⟩ pre).isGenerating = false
      ∧ (runOps ⟨true, true, true, "track-0", some "partial", none⟩ pre).isPlaying = false
      ∧ (runOps ⟨true, true, true, "track-0", some "partial", none⟩ pre).currentResponseMsg = none
      ∧ ((⟨true, true, true, "track-0", some "partial", none⟩ : TurnState).currentResponseMsg.isSome
          → RTOp.finalizeAgentMsg ∈ pre) :=
  c3_barge_in_before_submit ⟨true, true, true, "track-0", some "partial", none⟩
    "hello" "track-1" (Or.inl rfl) (by decide)

/-- C8: an agent audio-transcript delta is appended only while
`text_stream_locked` is false (when locked the handler performs no
operation at all), and a non-empty agent text delta always sets
`text_stream_locked` to true. -/
theorem c8_transcript_locked_out (st st2 : TurnState) (delta : Payload) (s : String)
    (hlock : st.textStreamLocked = true) (hs : s ≠ "") :
    handleAgentTranscriptDelta st delta = []
      ∧ (runOps st2 (handleAgentTextDelta st2 (.str s))).textStreamLocked = true := by
  constructor
  · simp [handleAgentTranscriptDelta, hlock]
  · unfold handleAgentTextDelta streamAgentText
    match hmsg : st2.currentResponseMsg with
    | none => simp [hs, runOps, applyOp, hmsg]
    | some m => simp [hs, runOps, applyOp, hmsg]

/-- C8 witness: a locked state discards a transcript delta; a text
delta locks the stream. -/
theorem c8_transcript_locked_out_witness :
    handleAgentTranscriptDelta ⟨true, true, true, "t", some "x", none⟩ (.str "drop") = []
      ∧ (runOps ⟨false, false, false, "t", none, none⟩
          (handleAgentTextDelta ⟨false, false, false, "t", none, none⟩ (.str "hi"))).textStreamLocked
          = true :=
  c8_transcript_locked_out ⟨true, true, true, "t", some "x", none⟩
    ⟨false, false, false, "t", none, none⟩ (.str "drop") "hi" rfl (by decide)

/-- C10: a delta payload that is absent, not a string, or the empty
string makes each of the three delta handlers perform no operation, so
the turn state is unchanged. -/
theorem c10_invalid_delta_no_effect (st : TurnState) :
    handleAgentTextDelta st .absent = []
      ∧ handleAgentTextDelta st .nonString = []
      ∧ handleAgentTextDelta st (.str "") = []
      ∧ handleAgentTranscriptDelta st .absent = []
      ∧ handleAgentTranscriptDelta st .nonString = []
      ∧ handleAgentTranscriptDelta st (.str "") = []
      ∧ handleUserTransDelta st .absent = []
      ∧ handleUserTransDelta st .nonString = []
      ∧ handleUserTransDelta st (.str "") = []
      ∧ runOps st [] = st := by
  refine ⟨rfl, rfl, rfl, ?_, ?_, ?_, rfl, rfl, rfl, rfl⟩ <;>
    · unfold handleAgentTranscriptDelta
      split <;> rfl

end RT

namespace FC


theorem processEvents_cons (conn : Bool) (st : FCState) (ev : FCEvent)
    (evs : List FCEvent) :
    processEvents conn st (ev :: evs)
      = processEvents conn (processEvent conn st ev) evs := rfl

theorem getPending_update_self (l : List (String × PendingCall)) (c d : String)
    (it : Option String) :
    getPending (updatePending l c d it) c
      = some (match getPending l c with
          | none => ⟨"", d, it⟩
          | some pc => { pc with args := pc.args ++ d }) := by
  induction l with
  | nil => simp [updatePending, getPending]
  | cons p ps ih =>
    by_cases h : p.1 = c
    · simp [updatePending, getPending, h]
    · simp [updatePending, getPending, h, ih]

theorem getPending_update_ne (l : List (String × PendingCall)) (c c2 d : String)
    (it : Option String) (h : c ≠ c2) :
    getPending (updatePending l c2 d it) c = getPending l c := by
  induction l with
  | nil =>
    simp [updatePending, getPending]
    intro hh
    exact absurd hh.symm h
  | cons p ps ih =>
    by_cases h2 : p.1 = c2
    · simp [updatePending, getPending, h2, Ne.symm h, ih]
    · by_cases h3 : p.1 = c
      · simp [updatePending, getPending, h2, h3, h]
      · simp [updatePending, getPending, h2, h3, h, ih]

theorem getPending_filter_ne (l : List (String × PendingCall)) (c c2 : String)
    (h : c ≠ c2) :
    getPending (l.filter (fun p => !(p.1 = c2))) c = getPending l c := by
  induction l with
  | nil => rfl
  | cons p ps ih =>
    by_cases h2 : p.1 = c2
    · simp [List.filter_cons, h2, getPending, Ne.symm h, ih]
    · by_cases h3 : p.1 = c
      · simp [List.filter_cons, h2, getPending, h3, h]
      · simp [List.filter_cons, h2, getPending, h3, h, ih]

theorem bufferedArgs_update_self (st : FCState) (c d : String) (it : Option String) :
    bufferedArgs { st with pending := updatePending st.pending c d it } c
      = bufferedArgs st c ++ d := by
  unfold bufferedArgs
  rw [getPending_update_self]
  rcases hg : getPending st.pending c with - | pc
  · simp
  · simp

theorem bufferedArgs_update_ne (st : FCState) (c c2 d : String) (it : Option String)
    (h : c ≠ c2) :
    bufferedArgs { st with pending := updatePending st.pending c2 d it } c
      = bufferedArgs st c := by
  unfold bufferedArgs
  rw [getPending_update_ne _ _ _ _ _ h]

/-- The aggregation invariant: while no done event for a call id has
arrived, its buffered argument string is the initial buffer followed by
the concatenation of its delta fragments in arrival order. -/
theorem processEvents_buffer (connected : Bool) (evs : List FCEvent) :
    ∀ (st : FCState) (c : String), c ≠ "" →
      (∀ ev ∈ evs, isDoneFor c ev = false) →
      bufferedArgs (processEvents connected st evs) c
        = bufferedArgs st c ++ deltasFor c evs := by
  induction evs with
  | nil => intro st c hc hnd; simp [processEvents, deltasFor]
  | cons ev rest ih =>
    intro st c hc hnd
    have hnd1 := hnd ev (List.mem_cons_self _ _)
    have hndr := fun e he => hnd e (List.mem_cons_of_mem _ he)
    rw [processEvents_cons]
    match ev with
    | .argsDelta none d it =>
      rw [show deltasFor c (FCEvent.argsDelta none d it :: rest)
        = deltasFor c rest from rfl]
      exact ih st c hc hndr
    | .argsDelta (some cid) d it =>
      rw [show deltasFor c (FCEvent.argsDelta (some cid) d it :: rest)
        = (if cid = c then d else "") ++ deltasFor c rest from rfl]
      by_cases hcid : cid = ""
      · subst hcid
        have hne : ¬ ("" : String) = c := fun hh => hc hh.symm
        rw [show processEvent connected st (FCEvent.argsDelta (some "") d it)
          = st from rfl]
        rw [ih st c hc hndr]
        simp [hne]
      · have hstep : processEvent connected st (FCEvent.argsDelta (some cid) d it)
            = { st with pending := updatePending st.pending cid d it } := by
          simp [processEvent, handleArgsDelta, hcid]
        rw [hstep, ih _ c hc hndr]
        by_cases heq : cid = c
        · rw [heq, bufferedArgs_update_self]
          simp [heq, String.append_assoc]
        · rw [bufferedArgs_update_ne _ _ _ _ _ (fun hh => heq hh.symm)]
          simp [heq]
    | .argsDone none nm a it =>
      rw [show deltasFor c (FCEvent.argsDone none nm a it :: rest)
        = deltasFor c rest from rfl]
      exact ih st c hc hndr
    | .argsDone (some cid) nm a it =>
      have hne : ¬ cid = c := by
        simpa [isDoneFor] using hnd1
      rw [show deltasFor c (FCEvent.argsDone (some cid) nm a it :: rest)
        = deltasFor c rest from rfl]
      by_cases hcid : cid = ""
      · have hstep : processEvent connected st (FCEvent.argsDone (some cid) nm a it)
            = st := by
          simp [processEvent, handleArgsDone, hcid]
        rw [hstep]
        exact ih st c hc hndr
      · cases connected with
        | false =>
          have hstep : processEvent false st (FCEvent.argsDone (some cid) nm a it)
              = st := by
            simp [processEvent, handleArgsDone, hcid]
          rw [hstep]
          exact ih st c hc hndr
        | true =>
          have hstep : processEvent true st (FCEvent.argsDone (some cid) nm a it)
              = { st with
                  executed := st.executed ++ [(cid, nm, a)],
                  pending := st.pending.filter (fun p => !(p.1 = cid)) } := by
            simp [processEvent, handleArgsDone, hcid]
          rw [hstep, ih _ c hc hndr]
          have hbuf : bufferedArgs
              ({ st with
                  executed := st.executed ++ [(cid, nm, a)],
                  pending := st.pending.filter (fun p => !(p.1 = cid)) }) c
              = bufferedArgs st c := by
            unfold bufferedArgs
            rw [getPending_filter_ne _ _ _ (fun hh => hne hh.symm)]
          rw [hbuf]

/-- C2: when the done event for a call id carries the full argument
string — equal, per the transport contract, to the concatenation in
arrival order of all its delta fragments — the aggregator's buffer
holds exactly that concatenation just before the done event, and the
dispatch to `_execute_function_call_async` receives exactly it. -/
theorem c2_executor_receives_concat (evs : List FCEvent) (c : String)
    (nm : Option String) (args : String) (itemId : Option String) (st0 : FCState)
    (hc : c ≠ "")
    (hnd : ∀ ev ∈ evs, isDoneFor c ev = false)
    (hst0 : getPending st0.pending c = none)
    (hargs : args = deltasFor c evs) :
    bufferedArgs (processEvents true st0 evs) c = args
    ∧ (processEvents true st0 (evs ++ [.argsDone (some c) nm args itemId])).executed
        = (processEvents true st0 evs).executed ++ [(c, nm, args)] := by
  constructor
  · rw [processEvents_buffer true evs st0 c hc hnd]
    unfold bufferedArgs
    rw [hst0, hargs]
    simp
  · unfold processEvents
    rw [List.foldl_append]
    simp only [List.foldl_cons, List.foldl_nil, processEvent, handleArgsDone,
      hc, if_neg, ite_false, ite_true]

/-- C2 witness: the two Tokyo fragments followed by the done event
with the full argument string; the executor receives exactly the full
string, not the fragments. -/
theorem c2_executor_receives_concat_witness :
    bufferedArgs (processEvents true ⟨[], []⟩ tokyoEvs) "c1"
        = "\x7b\"location\":\"Tokyo\"\x7d"
    ∧ (processEvents true ⟨[], []⟩ (tokyoEvs ++ [.argsDone (some "c1")
        (some "get_weather") "\x7b\"location\":\"Tokyo\"\x7d" (some "item-1")])).executed
        = (processEvents true ⟨[], []⟩ tokyoEvs).executed
          ++ [("c1", some "get_weather", "\x7b\"location\":\"Tokyo\"\x7d")] :=
  c2_executor_receives_concat tokyoEvs "c1" (some "get_weather")
    "\x7b\"location\":\"Tokyo\"\x7d" (some "item-1") ⟨[], []⟩
    (by decide) (by decide) rfl (by decide)

/-- C5: in both the success and the error path the task feeds a
tool-output item back, and it requests a new response if and only if
`is_generating` was false at the check. -/
theorem c5_single_flight_response (gen : Bool) (callId : String)
    (name : Option String) (arguments : String) (exn : Option String) :
    (∃ out, ExecAction.feedToolOutput callId out
        ∈ (_execute_function_call_async gen callId name arguments exn).2)
    ∧ ((∃ b, ExecAction.createResponse b
        ∈ (_execute_function_call_async gen callId name arguments exn).2)
      ↔ gen = false) := by
  cases exn with
  | none => cases gen <;> simp [_execute_function_call_async]
  | some e => cases gen <;> simp [_execute_function_call_async]

/-- C9: an unknown function name yields a structured error payload
rather than a raised fault — when the arguments parse, the payload's
`error` field names the unknown function — and any argument-parse
failure is likewise converted into a structured error payload for
every function name. -/
theorem c9_unknown_function_structured_error (name arguments : String)
    (h1 : name ≠ "get_weather") (h2 : name ≠ "search_database") :
    (∃ msg, _execute_function_call name arguments
        = Json.obj [("error", Json.str msg)])
    ∧ (∀ nm e, parseJson arguments = .error e →
        _execute_function_call nm arguments = Json.obj [("error", Json.str e)])
    ∧ (∀ v, parseJson arguments = .ok v →
        _execute_function_call name arguments
          = Json.obj [("error", Json.str ("Unknown function: " ++ name))]) := by
  have part2 : ∀ nm e, parseJson arguments = .error e →
      _execute_function_call nm arguments = Json.obj [("error", Json.str e)] := by
    intro nm e hp
    unfold _execute_function_call
    rw [hp]
  have part3 : ∀ v, parseJson arguments = .ok v →
      _execute_function_call name arguments
        = Json.obj [("error", Json.str ("Unknown function: " ++ name))] := by
    intro v hp
    unfold _execute_function_call
    simp only [hp]
    rw [if_neg h1, if_neg h2]
  refine ⟨?_, part2, part3⟩
  match hp : parseJson arguments with
  | .error e => exact ⟨e, part2 name e hp⟩
  | .ok v => exact ⟨_, part3 v hp⟩

/-- C9 witness: the unknown name `frobnicate` with the empty-object
argument string. -/
theorem c9_unknown_function_structured_error_witness :
    (∃ msg, _execute_function_call "frobnicate" "\x7b\x7d"
        = Json.obj [("error", Json.str msg)])
    ∧ (∀ nm e, parseJson "\x7b\x7d" = .error e →
        _execute_function_call nm "\x7b\x7d" = Json.obj [("error", Json.str e)])
    ∧ (∀ v, parseJson "\x7b\x7d" = .ok v →
        _execute_function_call "frobnicate" "\x7b\x7d"
          = Json.obj [("error", Json.str ("Unknown function: " ++ "frobnicate"))]) :=
  c9_unknown_function_structured_error "frobnicate" "\x7b\x7d" (by decide) (by decide)

end FC

